import Mathlib

/-!
Verification development for the SRGAN data pipeline and model glue code
(`SRGAN/dataset.py`, `SRGAN/srgan_model.py`).

The Python code is shallowly embedded: numpy arrays become Lean lists
(one element per row), the random permutation drawn by `np.random.shuffle`
becomes an explicit argument, fallible constructors/loaders return
`Except`/`Option`, and the float16 normalisation of `load_data` is modelled
by exact round-to-nearest-even binary16 rounding over `ℚ`.
-/

namespace SRGAN

/-- Python slice `xs[a:b]` for nonnegative bounds: numpy basic slicing clips
out-of-range bounds to the array length instead of raising. -/
def pySlice (xs : List α) (a b : ℕ) : List α := (xs.take b).drop a

/-- numpy fancy indexing `xs[perm]`.  The Python raises `IndexError` on an
out-of-range index; that case is modelled by skipping the index, and every
theorem below assumes a valid permutation, under which the two agree. -/
def fancyIndex (xs : List α) (perm : List ℕ) : List α :=
  perm.filterMap (fun i => xs[i]?)

/-- State of `DataIterator` (dataset.py).  `num_examples` and `num_batches`
are stored at construction time, exactly as `__init__` does, rather than
recomputed from `x`. -/
structure DataIterator (α β : Type) where
  x : List α
  y : List β
  label_off : Bool
  batch_size : ℕ
  num_examples : ℕ
  num_batches : ℕ
  pointer : ℕ
deriving DecidableEq

/-- The two ways `DataIterator.__init__` can raise: `num_examples // batch_size`
raises `ZeroDivisionError` when `batch_size = 0` (it runs before the assert),
and `assert batch_size <= num_examples` raises `AssertionError`. -/
inductive InitError where
  | zeroDivision
  | assertionError
deriving DecidableEq

/-- `DataIterator.__init__`: stores the arrays, computes
`num_batches = num_examples // batch_size` (Python floor division, raising on
a zero batch size), then asserts `batch_size <= num_examples`.
When `label_off` is true the Python never assigns `self.y`; the stored `y`
is then never read by `next_batch`, so it is kept as given. -/
def mkDataIterator (x : List α) (y : List β) (batch_size : ℕ) (label_off : Bool) :
    Except InitError (DataIterator α β) :=
  if batch_size = 0 then .error .zeroDivision
  else if batch_size ≤ x.length then
    .ok { x := x, y := y, label_off := label_off, batch_size := batch_size,
          num_examples := x.length, num_batches := x.length / batch_size,
          pointer := 0 }
  else .error .assertionError

/-- Whether construction produced an iterator. -/
def initSucceeds (e : Except InitError (DataIterator α β)) : Bool :=
  match e with
  | .ok _ => true
  | .error _ => false

/-- `DataIterator.next_batch`: advance the pointer by `batch_size`; if it
passed `num_examples`, reshuffle `x` (and `y` unless `label_off`) by the one
freshly drawn permutation `perm`, restart at 0 and set the pointer to
`batch_size`; return the slice `[start:end]` of the (possibly reshuffled)
arrays together with the new state.  When `label_off` the Python returns only
the `x` slice; that is encoded by an empty label component. -/
def next_batch (s : DataIterator α β) (perm : List ℕ) :
    (List α × List β) × DataIterator α β :=
  let start := s.pointer
  let p := s.pointer + s.batch_size
  if s.num_examples < p then
    let x' := fancyIndex s.x perm
    let y' := if s.label_off then s.y else fancyIndex s.y perm
    let s' := { s with x := x', y := y', pointer := s.batch_size }
    ((pySlice x' 0 s.batch_size,
      if s.label_off then [] else pySlice y' 0 s.batch_size), s')
  else
    let s' := { s with pointer := p }
    ((pySlice s.x start p, if s.label_off then [] else pySlice s.y start p), s')

/-- Helper for `iterate`: run `next_batch` `fuel` times, feeding the `j`-th
call the permutation `perms j` (only consulted on a reshuffle). -/
def iterAux (fuel j : ℕ) (s : DataIterator α β) (perms : ℕ → List ℕ) :
    List (List α × List β) × DataIterator α β :=
  match fuel with
  | 0 => ([], s)
  | k + 1 =>
    let r := next_batch s (perms j)
    let rest := iterAux k (j + 1) r.2 perms
    (r.1 :: rest.1, rest.2)

/-- `DataIterator.iterate`: yield `num_batches` batches, each produced by
`next_batch`, threading the iterator state through. -/
def iterate (s : DataIterator α β) (perms : ℕ → List ℕ) :
    List (List α × List β) × DataIterator α β :=
  iterAux s.num_batches 0 s perms

/-- `int(np.ceil(full / size))` for natural `full`, `size` (exact ceiling
division; the Python float division is exact at these magnitudes). -/
def n_chunks (full size : ℕ) : ℕ := (full + size - 1) / size

/-- The slicing step of `CelebADataSet.load_data` once the offset is in
range: the last chunk (`offset == n_chunks - 1`) is clipped to the end of the
file, any other chunk is the slice `[offset*size : (offset+1)*size]`. -/
def chunk_slice (faces : List ℕ) (size offset nc : ℕ) : List ℕ :=
  if offset = nc - 1 then faces.drop (offset * size)
  else pySlice faces (offset * size) ((offset + 1) * size)

/-- The chunk selection of `CelebADataSet.load_data` (before normalisation):
compute `n_chunks = ceil(full_size / size)`, wrap an out-of-range offset by
`offset % n_chunks`, then slice.  Returns `none` exactly where the Python
raises: `size = 0` (`ZeroDivisionError` in `full_size / size`) and the modulo
by `n_chunks = 0` reached whenever the stored array is empty. -/
def load_chunk (faces : List ℕ) (size offset : ℕ) : Option (List ℕ) :=
  if size = 0 then none
  else
    let nc := n_chunks faces.length size
    if nc ≤ offset then
      if nc = 0 then none
      else some (chunk_slice faces size (offset % nc) nc)
    else some (chunk_slice faces size offset nc)

/-- Exact multiplication of a rational by `2 ^ s` for an integer `s`, built
from `mkRat` and integer arithmetic only, so that it evaluates inside the
kernel (the Batteries `Rat.mul` is irreducible). -/
def mulPow2 (q : ℚ) (s : ℤ) : ℚ :=
  if 0 ≤ s then mkRat (q.num * Int.ofNat (2 ^ s.toNat)) q.den
  else mkRat q.num (q.den * 2 ^ (-s).toNat)

/-- The rational `2 ^ e` for an integer exponent. -/
def pow2 (e : ℤ) : ℚ := mulPow2 (mkRat 1 1) e

/-- Exact multiplication of a rational by a natural number. -/
def ratMulNat (q : ℚ) (n : ℕ) : ℚ := mkRat (q.num * Int.ofNat n) q.den

/-- The floor of a rational, computed on the normalised representation. -/
def ratFloor (q : ℚ) : ℤ := Int.ediv q.num (Int.ofNat q.den)

/-- Round-half-to-even to the nearest integer (the IEEE-754 default tie
rule).  The fractional part `q - f` is compared with `1/2` by comparing
`2 * (q.num - f * q.den)` with the denominator. -/
def roundHalfEven (q : ℚ) : ℤ :=
  let f := ratFloor q
  let r2 := 2 * (q.num - f * Int.ofNat q.den)
  if r2 < Int.ofNat q.den then f
  else if Int.ofNat q.den < r2 then f + 1
  else if f % 2 = 0 then f else f + 1

/-- Largest `e` with `2^e ≤ q`, searched over `e ∈ [-20, 8]`: enough for
every magnitude this file feeds it (`q ∈ [1/255, 1]`). -/
def floorLog2 (q : ℚ) : ℤ :=
  (List.range 29).foldl
    (fun acc k =>
      let e : ℤ := (k : ℤ) - 20
      if Rat.blt q (pow2 e) then acc else e)
    (-20)

/-- Round a nonnegative rational to the nearest IEEE binary16 value
(round-to-nearest, ties to even; 11-bit significand, subnormal cutoff at
exponent -14).  Models `np.array(chunk, dtype=np.float16) / 255.`, whose
uint8 inputs are exactly representable and whose quotient numpy rounds to
float16. -/
def roundF16 (q : ℚ) : ℚ :=
  if Rat.blt 0 q then
    let e0 := floorLog2 q
    let e := if e0 ≤ -14 then (-14 : ℤ) else e0
    mulPow2 (mkRat (roundHalfEven (mulPow2 q (10 - e))) 1) (e - 10)
  else 0

/-- Per-pixel normalisation performed by `load_data`: convert the byte to
float16 (exact) and divide by 255 in float16. -/
def normalizePixel (v : ℕ) : ℚ := roundF16 (mkRat (Int.ofNat v) 255)

/-- `CelebADataSet.load_data`: select the requested chunk, then return it as
a normalised reduced-precision array. -/
def load_data (faces : List ℕ) (size offset : ℕ) : Option (List ℚ) :=
  (load_chunk faces size offset).map (List.map normalizePixel)

/-- `SRGAN.generator`: in this revision the body is `return z`. -/
def generator (z : α) : α := z

noncomputable section

/-- `tf.nn.l2_loss`: half the sum of squared entries. -/
def l2_loss (t : List ℝ) : ℝ := (t.map (fun v => v ^ 2)).sum / 2

/-- Elementwise tensor subtraction `pred - data`. -/
def tsub (pred data : List ℝ) : List ℝ := List.zipWith (fun a b => a - b) pred data

/-- The local `mse_loss` of `SRGAN.build_began`:
`tf.sqrt(2 * tf.nn.l2_loss(pred - data)) / self.batch_size`. -/
def mse_loss (pred data : List ℝ) (batch_size : ℕ) : ℝ :=
  Real.sqrt (2 * l2_loss (tsub pred data)) / batch_size

/-- `tf.ones_like`. -/
def ones_like (t : List ℝ) : List ℝ := t.map (fun _ => 1)

/-- `tf.zeros_like`. -/
def zeros_like (t : List ℝ) : List ℝ := t.map (fun _ => 0)

/-- `tf.reduce_sum` applied to the scalar `mse_loss` result. -/
def reduce_sum (x : ℝ) : ℝ := x

/-- `self.d_loss = (d_real_loss + d_fake_loss) / 2.` with
`d_real_loss = tf.reduce_sum(mse_loss(d_real, ones))` and
`d_fake_loss = tf.reduce_sum(mse_loss(d_fake, zeros))`. -/
def d_loss (d_real d_fake : List ℝ) (batch_size : ℕ) : ℝ :=
  (reduce_sum (mse_loss d_real (ones_like d_real) batch_size)
    + reduce_sum (mse_loss d_fake (zeros_like d_fake) batch_size)) / 2

/-- `self.g_loss = tf.reduce_sum(mse_loss(d_fake, ones))`. -/
def g_loss (d_fake : List ℝ) (batch_size : ℕ) : ℝ :=
  reduce_sum (mse_loss d_fake (ones_like d_fake) batch_size)

/-- Modelled from the spec: the loss the claim describes, the mean-squared
deviation of the output from the constant target, scaled (divided) by the
batch size. -/
def spec_msd_loss (pred : List ℝ) (target : ℝ) (batch_size : ℕ) : ℝ :=
  (pred.map (fun v => (v - target) ^ 2)).sum / batch_size

end


section Helpers

lemma pySlice_length (xs : List α) (a b : ℕ) (hb : b ≤ xs.length) :
    (pySlice xs a b).length = b - a := by
  simp [pySlice, Nat.min_eq_left hb]

lemma pySlice_sublist (xs : List α) (a b : ℕ) : (pySlice xs a b).Sublist xs :=
  ((List.drop_sublist a (xs.take b)).trans (List.take_sublist b xs))

lemma fancyIndex_length (xs : List α) (perm : List ℕ)
    (h : ∀ i ∈ perm, i < xs.length) : (fancyIndex xs perm).length = perm.length := by
  induction perm with
  | nil => rfl
  | cons i t ih =>
    have hi : i < xs.length := h i (List.mem_cons_self i t)
    have ht : ∀ j ∈ t, j < xs.length := fun j hj => h j (List.mem_cons_of_mem i hj)
    have hrec := ih ht
    simp only [fancyIndex] at hrec ⊢
    simp [List.filterMap_cons, List.getElem?_eq_getElem hi, hrec]

lemma range_filterMap_getElem (xs : List α) :
    (List.range xs.length).filterMap (fun i => xs[i]?) = xs := by
  induction xs with
  | nil => rfl
  | cons a t ih =>
    have h1 : (List.range (t.length + 1)) = 0 :: (List.range t.length).map Nat.succ :=
      List.range_succ_eq_map t.length
    simp only [List.length_cons, h1, List.filterMap_cons, List.filterMap_map]
    have h2 : ((fun i => (a :: t)[i]?) ∘ Nat.succ) = fun i => t[i]? := by
      funext i
      simp
    simp [h2, ih]

lemma fancyIndex_perm (xs : List α) (perm : List ℕ)
    (h : perm.Perm (List.range xs.length)) : (fancyIndex xs perm).Perm xs := by
  have h1 : (fancyIndex xs perm).Perm ((List.range xs.length).filterMap (fun i => xs[i]?)) :=
    List.Perm.filterMap _ h
  rwa [range_filterMap_getElem] at h1

lemma zip_take_eq (n : ℕ) (x : List α) (y : List β) :
    (x.take n).zip (y.take n) = (x.zip y).take n := by
  induction n generalizing x y with
  | zero => simp
  | succ k ih =>
    cases x with
    | nil => simp
    | cons a t =>
      cases y with
      | nil => simp
      | cons b u => simp [ih]

lemma zip_drop_eq (n : ℕ) (x : List α) (y : List β) :
    (x.drop n).zip (y.drop n) = (x.zip y).drop n := by
  induction n generalizing x y with
  | zero => simp
  | succ k ih =>
    cases x with
    | nil => simp
    | cons a t =>
      cases y with
      | nil => simp
      | cons b u => simp [ih]

lemma pySlice_zip (x : List α) (y : List β) (a b : ℕ) :
    (pySlice x a b).zip (pySlice y a b) = pySlice (x.zip y) a b := by
  simp [pySlice, zip_take_eq, zip_drop_eq]

lemma fancyIndex_zip (x : List α) (y : List β) (perm : List ℕ)
    (hx : ∀ i ∈ perm, i < x.length) (hxy : x.length = y.length) :
    (fancyIndex x perm).zip (fancyIndex y perm) = fancyIndex (x.zip y) perm := by
  induction perm with
  | nil => rfl
  | cons i t ih =>
    have hi : i < x.length := hx i (List.mem_cons_self i t)
    have hi' : i < y.length := hxy ▸ hi
    have hiz : i < (x.zip y).length := by simp [List.length_zip]; omega
    have ht : ∀ j ∈ t, j < x.length := fun j hj => hx j (List.mem_cons_of_mem i hj)
    simp only [fancyIndex, List.filterMap_cons, List.getElem?_eq_getElem hi,
      List.getElem?_eq_getElem hi', List.getElem?_eq_getElem hiz]
    simp only [fancyIndex] at ih
    simp [ih ht, List.getElem_zip]

lemma n_chunks_mul_ge (full s : ℕ) (hs : 1 ≤ s) (hf : 1 ≤ full) :
    full ≤ n_chunks full s * s := by
  obtain ⟨f, rfl⟩ : ∃ f, full = f + 1 := ⟨full - 1, by omega⟩
  have he : f + 1 + s - 1 = f + s := by omega
  rw [n_chunks, he, Nat.add_div_right _ (by omega)]
  have h2 := Nat.div_add_mod f s
  have h3 : f % s < s := Nat.mod_lt _ (by omega)
  nlinarith [h2, h3]

lemma n_chunks_pred_mul_lt (full s : ℕ) (hs : 1 ≤ s) (hf : 1 ≤ full) :
    (n_chunks full s - 1) * s < full := by
  have he : full + s - 1 = (full - 1) + s := by omega
  rw [n_chunks, he, Nat.add_div_right _ (by omega)]
  simp only [Nat.add_sub_cancel]
  exact lt_of_le_of_lt (Nat.div_mul_le_self _ _) (by omega)

lemma n_chunks_pos (full s : ℕ) (hs : 1 ≤ s) (hf : 1 ≤ full) :
    1 ≤ n_chunks full s := by
  have he : full + s - 1 = (full - 1) + s := by omega
  rw [n_chunks, he, Nat.add_div_right _ (by omega)]
  exact Nat.succ_le_succ (Nat.zero_le _)

end Helpers

/-- C7: the generator returns its input unchanged — it is the identity
placeholder, not a functioning generator. -/
theorem c7_generator_identity (z : α) : generator z = z := rfl

/-- C8 counterexample: with batch size 0 (and one example) the constructor
fails (the Python raises ZeroDivisionError computing `num_examples //
batch_size` before the assert) although `batch_size <= num_examples` holds,
so "construction succeeds iff batch_size <= num_examples" is false. -/
theorem c8_counterexample :
    ¬ (initSucceeds (mkDataIterator ([0] : List ℕ) ([] : List ℕ) 0 true) = true ↔
        0 ≤ ([0] : List ℕ).length) := by decide

/-- C8 amended: construction succeeds iff `1 ≤ batch_size ≤ num_examples`;
when `batch_size > num_examples` it fails with an assertion error, and when
`batch_size = 0` it fails with a division-by-zero error raised before the
assertion. -/
theorem c8_amended (x : List α) (y : List β) (bs : ℕ) (off : Bool) :
    (initSucceeds (mkDataIterator x y bs off) = true ↔ 1 ≤ bs ∧ bs ≤ x.length) ∧
    (x.length < bs → mkDataIterator x y bs off = .error .assertionError) ∧
    (bs = 0 → mkDataIterator x y bs off = .error .zeroDivision) := by
  refine ⟨?_, ?_, ?_⟩
  · unfold mkDataIterator
    split_ifs with h1 h2
    · simp [initSucceeds]
      omega
    · simp [initSucceeds]
      omega
    · simp [initSucceeds]
      omega
  · intro hlt
    unfold mkDataIterator
    rw [if_neg (by omega), if_neg (by omega)]
  · intro hz
    unfold mkDataIterator
    rw [if_pos hz]

/-- C8 amended, witnessed at a concrete successful construction. -/
theorem c8_amended_witness :
    (initSucceeds (mkDataIterator ([3, 4] : List ℕ) ([9, 9] : List ℕ) 2 false) = true ↔
      1 ≤ 2 ∧ 2 ≤ ([3, 4] : List ℕ).length) ∧
    (([3, 4] : List ℕ).length < 2 →
      mkDataIterator ([3, 4] : List ℕ) ([9, 9] : List ℕ) 2 false = .error .assertionError) ∧
    ((2 : ℕ) = 0 →
      mkDataIterator ([3, 4] : List ℕ) ([9, 9] : List ℕ) 2 false = .error .zeroDivision) :=
  c8_amended [3, 4] [9, 9] 2 false

/-- C2: for every chunk size `1 ≤ s ≤ total` and chunk index `i` below the
number of chunks, `load_data` selects exactly `min s (total - i*s)` rows,
equal to the contiguous slice of the stored array starting at row `i*s`
(before normalisation); the final undersized chunk is clipped, not an
error. -/
theorem c2_chunk_rows (faces : List ℕ) (s i : ℕ)
    (hs1 : 1 ≤ s) (hs2 : s ≤ faces.length) (hi : i < n_chunks faces.length s) :
    load_chunk faces s i =
      some ((faces.drop (i * s)).take (min s (faces.length - i * s))) ∧
    ((faces.drop (i * s)).take (min s (faces.length - i * s))).length
      = min s (faces.length - i * s) ∧
    load_data faces s i =
      some (((faces.drop (i * s)).take (min s (faces.length - i * s))).map
        normalizePixel) := by
  have hf : 1 ≤ faces.length := le_trans hs1 hs2
  have hub := n_chunks_mul_ge faces.length s hs1 hf
  have hlow := n_chunks_pred_mul_lt faces.length s hs1 hf
  have hp := n_chunks_pos faces.length s hs1 hf
  have hBA : (n_chunks faces.length s - 1) * s + s = n_chunks faces.length s * s := by
    conv_rhs => rw [← Nat.sub_add_cancel hp]
    ring
  have hmain : chunk_slice faces s i (n_chunks faces.length s) =
      (faces.drop (i * s)).take (min s (faces.length - i * s)) := by
    unfold chunk_slice
    by_cases hlast : i = n_chunks faces.length s - 1
    · rw [if_pos hlast]
      have h1 : faces.length - i * s ≤ s := by
        rw [hlast]
        omega
      rw [Nat.min_eq_right h1]
      exact (List.take_of_length_le (by rw [List.length_drop])).symm
    · rw [if_neg hlast]
      have hi1 : i + 1 ≤ n_chunks faces.length s - 1 := by omega
      have h2 : (i + 1) * s ≤ (n_chunks faces.length s - 1) * s :=
        Nat.mul_le_mul_right s hi1
      have h3 : (i + 1) * s < faces.length := lt_of_le_of_lt h2 hlow
      have h4 : i * s + s = (i + 1) * s := (Nat.succ_mul i s).symm
      have h5 : s ≤ faces.length - i * s := by omega
      rw [Nat.min_eq_left h5, pySlice, List.drop_take]
      congr 1
      omega
  have hchunk : load_chunk faces s i =
      some ((faces.drop (i * s)).take (min s (faces.length - i * s))) := by
    simp only [load_chunk, if_neg (show ¬ s = 0 by omega),
      if_neg (Nat.not_le.mpr hi), hmain]
  refine ⟨hchunk, ?_, ?_⟩
  · rw [List.length_take, List.length_drop]
    exact Nat.min_eq_left (Nat.min_le_right _ _)
  · rw [load_data, hchunk]
    rfl

/-- C2 witnessed at the stored array `[4, 5, 6]` with chunk size 2 and the
final, undersized chunk index 1. -/
theorem c2_chunk_rows_witness :
    (1 ≤ 2 ∧ 2 ≤ ([4, 5, 6] : List ℕ).length ∧
      1 < n_chunks ([4, 5, 6] : List ℕ).length 2) ∧
    (load_chunk [4, 5, 6] 2 1 =
      some ((([4, 5, 6] : List ℕ).drop (1 * 2)).take
        (min 2 (([4, 5, 6] : List ℕ).length - 1 * 2))) ∧
    ((([4, 5, 6] : List ℕ).drop (1 * 2)).take
        (min 2 (([4, 5, 6] : List ℕ).length - 1 * 2))).length
      = min 2 (([4, 5, 6] : List ℕ).length - 1 * 2) ∧
    load_data [4, 5, 6] 2 1 =
      some (((([4, 5, 6] : List ℕ).drop (1 * 2)).take
        (min 2 (([4, 5, 6] : List ℕ).length - 1 * 2))).map normalizePixel)) :=
  ⟨by decide, c2_chunk_rows [4, 5, 6] 2 1 (by decide) (by decide) (by decide)⟩

/-- C4: an out-of-range chunk index wraps around modulo the number of
chunks: `load_data` behaves identically at `i` and `i % n_chunks`. -/
theorem c4_wraparound (faces : List ℕ) (s i : ℕ)
    (h : n_chunks faces.length s ≤ i) :
    load_data faces s i = load_data faces s (i % n_chunks faces.length s) := by
  suffices hc : load_chunk faces s i = load_chunk faces s (i % n_chunks faces.length s) by
    simp only [load_data, hc]
  by_cases h0 : s = 0
  · simp [load_chunk, h0]
  · by_cases hnc : n_chunks faces.length s = 0
    · simp [load_chunk, h0, hnc, Nat.mod_zero]
    · have hm : i % n_chunks faces.length s < n_chunks faces.length s :=
        Nat.mod_lt _ (by omega)
      simp [load_chunk, h0, hnc, h, Nat.not_le.mpr hm]

/-- C4 witnessed at `[1, 2, 3]`, chunk size 2 (2 chunks), index 5. -/
theorem c4_wraparound_witness :
    n_chunks ([1, 2, 3] : List ℕ).length 2 ≤ 5 ∧
    load_data [1, 2, 3] 2 5 = load_data [1, 2, 3] 2 (5 % n_chunks ([1, 2, 3] : List ℕ).length 2) :=
  ⟨by decide, c4_wraparound [1, 2, 3] 2 5 (by decide)⟩

/-- C10: when the requested chunk size exceeds the number of stored rows
the number of chunks is 1, offset 0 is the (clipped) last chunk, and the
entire stored array is returned normalised, with no failure. -/
theorem c10_oversized_chunk (faces : List ℕ) (s : ℕ)
    (hf : 1 ≤ faces.length) (hs : faces.length < s) :
    load_data faces s 0 = some (faces.map normalizePixel) ∧
    n_chunks faces.length s = 1 := by
  have hnc : n_chunks faces.length s = 1 := by
    unfold n_chunks
    exact Nat.div_eq_of_lt_le (by omega) (by omega)
  refine ⟨?_, hnc⟩
  simp [load_data, load_chunk, hnc, show ¬ s = 0 by omega, chunk_slice]

/-- C10 witnessed at the stored array `[8, 9]` with chunk size 5. -/
theorem c10_oversized_chunk_witness :
    (1 ≤ ([8, 9] : List ℕ).length ∧ ([8, 9] : List ℕ).length < 5) ∧
    (load_data [8, 9] 5 0 = some (([8, 9] : List ℕ).map normalizePixel) ∧
      n_chunks ([8, 9] : List ℕ).length 5 = 1) :=
  ⟨⟨by decide, by decide⟩, c10_oversized_chunk [8, 9] 5 (by decide) (by decide)⟩

lemma chunk_slice_subset (faces : List ℕ) (s o nc : ℕ) :
    chunk_slice faces s o nc ⊆ faces := by
  unfold chunk_slice
  split_ifs
  · exact (List.drop_sublist _ _).subset
  · exact (pySlice_sublist _ _ _).subset

lemma load_chunk_subset (faces : List ℕ) (s i : ℕ) (c : List ℕ)
    (h : load_chunk faces s i = some c) : c ⊆ faces := by
  unfold load_chunk at h
  by_cases h1 : s = 0
  · rw [if_pos h1] at h
    cases h
  · rw [if_neg h1] at h
    by_cases h2 : n_chunks faces.length s ≤ i
    · rw [if_pos h2] at h
      by_cases h3 : n_chunks faces.length s = 0
      · rw [if_pos h3] at h
        cases h
      · rw [if_neg h3] at h
        exact (Option.some.inj h) ▸ chunk_slice_subset _ _ _ _
    · rw [if_neg h2] at h
      exact (Option.some.inj h) ▸ chunk_slice_subset _ _ _ _

set_option maxRecDepth 20000 in
lemma byte_roundtrip :
    ∀ v : ℕ, v < 256 →
      0 ≤ normalizePixel v ∧ normalizePixel v ≤ 1 ∧
      roundHalfEven (ratMulNat (normalizePixel v) 255) = Int.ofNat v := by decide

/-- C9: every byte of a stored chunk survives the round trip through the
reduced-precision (binary16) normalisation: the reloaded value divided by
255 lies in `[0, 1]`, and multiplying it back by 255 and rounding gives the
original byte back, index for index. -/
theorem c9_roundtrip (faces : List ℕ) (s i : ℕ) (chunk : List ℕ)
    (hb : ∀ b ∈ faces, b < 256)
    (hchunk : load_chunk faces s i = some chunk) :
    load_data faces s i = some (chunk.map normalizePixel) ∧
    ∀ b ∈ chunk, 0 ≤ normalizePixel b ∧ normalizePixel b ≤ 1 ∧
      roundHalfEven (ratMulNat (normalizePixel b) 255) = Int.ofNat b := by
  refine ⟨by simp only [load_data, hchunk, Option.map_some'], ?_⟩
  intro b hbc
  exact byte_roundtrip b (hb b (load_chunk_subset faces s i chunk hchunk hbc))

/-- C9 witnessed at the stored bytes `[0, 7, 255]` loaded as one chunk. -/
theorem c9_roundtrip_witness :
    ((∀ b ∈ ([0, 7, 255] : List ℕ), b < 256) ∧
      load_chunk [0, 7, 255] 3 0 = some [0, 7, 255]) ∧
    (load_data [0, 7, 255] 3 0 = some (([0, 7, 255] : List ℕ).map normalizePixel) ∧
      ∀ b ∈ ([0, 7, 255] : List ℕ), 0 ≤ normalizePixel b ∧ normalizePixel b ≤ 1 ∧
        roundHalfEven (ratMulNat (normalizePixel b) 255) = Int.ofNat b) :=
  ⟨⟨by decide, by decide⟩,
    c9_roundtrip [0, 7, 255] 3 0 [0, 7, 255] (by decide) (by decide)⟩

/-- Permutation (reversal) used by the concrete reshuffle scenarios. -/
def c1perm : List ℕ := (List.range 100).reverse

/-- Fresh iterator over a feature array of length 100 with batch size 30
(labels off), as constructed by `DataIterator.__init__`. -/
def c1s0 : DataIterator ℕ ℕ :=
  ((mkDataIterator (List.range 100) ([] : List ℕ) 30 true).toOption).getD
    ⟨[], [], true, 0, 0, 0, 0⟩

/-- State after the 1st `next_batch` call of the concrete scenario. -/
def c1s1 : DataIterator ℕ ℕ := (next_batch c1s0 c1perm).2

/-- State after the 2nd call. -/
def c1s2 : DataIterator ℕ ℕ := (next_batch c1s1 c1perm).2

/-- State after the 3rd call. -/
def c1s3 : DataIterator ℕ ℕ := (next_batch c1s2 c1perm).2

/-- State after the 4th call. -/
def c1s4 : DataIterator ℕ ℕ := (next_batch c1s3 c1perm).2

/-- C1: with `batch_size ≤ num_examples` every `next_batch` call returns
exactly `batch_size` rows; if the advanced cursor stays within
`num_examples` it is the contiguous slice `[pointer, pointer+batch_size)`
of the stored arrays (no reshuffle), otherwise both arrays are reshuffled
by the one fresh permutation, the first `batch_size` rows of the reshuffled
array are returned and the pointer equals `batch_size`.  Concretely, for
100 rows and batch size 30, four calls return 30, 30, 30, 30 rows, only
the 4th call reshuffles, and the pointer is 30 afterwards. -/
theorem c1_next_batch (s : DataIterator α β) (perm : List ℕ)
    (hx : s.x.length = s.num_examples)
    (hbs : s.batch_size ≤ s.num_examples)
    (hperm : perm.Perm (List.range s.num_examples)) :
    (next_batch s perm).1.1.length = s.batch_size ∧
    (s.pointer + s.batch_size ≤ s.num_examples →
      (next_batch s perm).1.1 = pySlice s.x s.pointer (s.pointer + s.batch_size) ∧
      (s.label_off = false →
        (next_batch s perm).1.2 = pySlice s.y s.pointer (s.pointer + s.batch_size)) ∧
      (next_batch s perm).2.x = s.x ∧
      (next_batch s perm).2.y = s.y ∧
      (next_batch s perm).2.pointer = s.pointer + s.batch_size) ∧
    (s.num_examples < s.pointer + s.batch_size →
      (next_batch s perm).2.x = fancyIndex s.x perm ∧
      (s.label_off = false → (next_batch s perm).2.y = fancyIndex s.y perm) ∧
      (next_batch s perm).1.1 = pySlice (fancyIndex s.x perm) 0 s.batch_size ∧
      (s.label_off = false →
        (next_batch s perm).1.2 = pySlice (fancyIndex s.y perm) 0 s.batch_size) ∧
      (next_batch s perm).2.pointer = s.batch_size) ∧
    ((next_batch c1s0 c1perm).1.1.length = 30 ∧
      (next_batch c1s1 c1perm).1.1.length = 30 ∧
      (next_batch c1s2 c1perm).1.1.length = 30 ∧
      (next_batch c1s3 c1perm).1.1.length = 30 ∧
      c1s0.pointer + 30 ≤ 100 ∧ c1s1.pointer + 30 ≤ 100 ∧ c1s2.pointer + 30 ≤ 100 ∧
      100 < c1s3.pointer + 30 ∧ c1s0.num_examples = 100 ∧ c1s3.num_examples = 100 ∧
      c1s4.pointer = 30) := by
  have hplen : perm.length = s.num_examples := by simpa using hperm.length_eq
  have hvalid : ∀ i ∈ perm, i < s.x.length := fun i hi => by
    rw [hx]
    exact List.mem_range.mp (hperm.subset hi)
  have hxlen : (fancyIndex s.x perm).length = s.num_examples := by
    rw [fancyIndex_length s.x perm hvalid, hplen]
  have hconc : (next_batch c1s0 c1perm).1.1.length = 30 ∧
      (next_batch c1s1 c1perm).1.1.length = 30 ∧
      (next_batch c1s2 c1perm).1.1.length = 30 ∧
      (next_batch c1s3 c1perm).1.1.length = 30 ∧
      c1s0.pointer + 30 ≤ 100 ∧ c1s1.pointer + 30 ≤ 100 ∧ c1s2.pointer + 30 ≤ 100 ∧
      100 < c1s3.pointer + 30 ∧ c1s0.num_examples = 100 ∧ c1s3.num_examples = 100 ∧
      c1s4.pointer = 30 := by decide
  by_cases hcase : s.num_examples < s.pointer + s.batch_size
  · refine ⟨?_, fun hle => absurd hcase (by omega), fun _ => ?_, hconc⟩
    · simp only [next_batch, if_pos hcase, pySlice, List.drop_zero, List.length_take]
      rw [hxlen]
      exact Nat.min_eq_left hbs
    · refine ⟨?_, fun hoff => ?_, ?_, fun hoff => ?_, ?_⟩
      · simp [next_batch, hcase]
      · simp [next_batch, hcase, hoff]
      · simp [next_batch, hcase]
      · simp [next_batch, hcase, hoff]
      · simp [next_batch, hcase]
  · have hle' : s.pointer + s.batch_size ≤ s.num_examples := by omega
    refine ⟨?_, fun _ => ?_, fun hlt => absurd hlt (by omega), hconc⟩
    · simp only [next_batch, if_neg hcase, pySlice, List.length_drop, List.length_take]
      rw [hx, Nat.min_eq_left hle']
      omega
    · refine ⟨?_, fun hoff => ?_, ?_, ?_, ?_⟩
      · simp [next_batch, hcase]
      · simp [next_batch, hcase, hoff]
      · simp [next_batch, hcase]
      · simp [next_batch, hcase]
      · simp [next_batch, hcase]

/-- C1 witnessed on the fresh concrete iterator (100 rows, batch 30). -/
theorem c1_next_batch_witness :
    (c1s0.x.length = c1s0.num_examples ∧ c1s0.batch_size ≤ c1s0.num_examples ∧
      c1perm.Perm (List.range c1s0.num_examples)) ∧
    ((next_batch c1s0 c1perm).1.1.length = c1s0.batch_size ∧
    (c1s0.pointer + c1s0.batch_size ≤ c1s0.num_examples →
      (next_batch c1s0 c1perm).1.1 = pySlice c1s0.x c1s0.pointer (c1s0.pointer + c1s0.batch_size) ∧
      (c1s0.label_off = false →
        (next_batch c1s0 c1perm).1.2 = pySlice c1s0.y c1s0.pointer (c1s0.pointer + c1s0.batch_size)) ∧
      (next_batch c1s0 c1perm).2.x = c1s0.x ∧
      (next_batch c1s0 c1perm).2.y = c1s0.y ∧
      (next_batch c1s0 c1perm).2.pointer = c1s0.pointer + c1s0.batch_size) ∧
    (c1s0.num_examples < c1s0.pointer + c1s0.batch_size →
      (next_batch c1s0 c1perm).2.x = fancyIndex c1s0.x c1perm ∧
      (c1s0.label_off = false → (next_batch c1s0 c1perm).2.y = fancyIndex c1s0.y c1perm) ∧
      (next_batch c1s0 c1perm).1.1 = pySlice (fancyIndex c1s0.x c1perm) 0 c1s0.batch_size ∧
      (c1s0.label_off = false →
        (next_batch c1s0 c1perm).1.2 = pySlice (fancyIndex c1s0.y c1perm) 0 c1s0.batch_size) ∧
      (next_batch c1s0 c1perm).2.pointer = c1s0.batch_size) ∧
    ((next_batch c1s0 c1perm).1.1.length = 30 ∧
      (next_batch c1s1 c1perm).1.1.length = 30 ∧
      (next_batch c1s2 c1perm).1.1.length = 30 ∧
      (next_batch c1s3 c1perm).1.1.length = 30 ∧
      c1s0.pointer + 30 ≤ 100 ∧ c1s1.pointer + 30 ≤ 100 ∧ c1s2.pointer + 30 ≤ 100 ∧
      100 < c1s3.pointer + 30 ∧ c1s0.num_examples = 100 ∧ c1s3.num_examples = 100 ∧
      c1s4.pointer = 30)) :=
  ⟨⟨by decide, by decide,
      by rw [show c1s0.num_examples = 100 from by decide]; exact (List.range 100).reverse_perm⟩,
    c1_next_batch c1s0 c1perm (by decide) (by decide)
      (by rw [show c1s0.num_examples = 100 from by decide]; exact (List.range 100).reverse_perm)⟩

/-- C3: with labels on, `next_batch` permutes both arrays by the same shared
permutation, so the joint pairing of features and labels is preserved: the
post-state's zipped arrays stay a permutation of the original pairing, and
every returned (feature, label) pair at matching indices is one of the
original pairs.  The remaining conjuncts re-establish the invariant, so the
property holds across every sequence of calls. -/
theorem c3_label_pairing (x₀ : List α) (y₀ : List β) (s : DataIterator α β)
    (perm : List ℕ)
    (hoff : s.label_off = false)
    (hx : s.x.length = s.num_examples)
    (hy : s.y.length = s.num_examples)
    (hpair : (s.x.zip s.y).Perm (x₀.zip y₀))
    (hperm : perm.Perm (List.range s.num_examples)) :
    ((next_batch s perm).2.x.zip (next_batch s perm).2.y).Perm (x₀.zip y₀) ∧
    (∀ p ∈ (next_batch s perm).1.1.zip (next_batch s perm).1.2, p ∈ x₀.zip y₀) ∧
    (next_batch s perm).2.label_off = false ∧
    (next_batch s perm).2.x.length = (next_batch s perm).2.num_examples ∧
    (next_batch s perm).2.y.length = (next_batch s perm).2.num_examples := by
  have hplen : perm.length = s.num_examples := by simpa using hperm.length_eq
  have hvx : ∀ i ∈ perm, i < s.x.length := fun i hi => by
    rw [hx]
    exact List.mem_range.mp (hperm.subset hi)
  have hvy : ∀ i ∈ perm, i < s.y.length := fun i hi => by
    rw [hy]
    exact List.mem_range.mp (hperm.subset hi)
  have hxy : s.x.length = s.y.length := by rw [hx, hy]
  by_cases hcase : s.num_examples < s.pointer + s.batch_size
  · have hzip : (fancyIndex s.x perm).zip (fancyIndex s.y perm)
        = fancyIndex (s.x.zip s.y) perm := fancyIndex_zip s.x s.y perm hvx hxy
    have hzlen : (s.x.zip s.y).length = s.num_examples := by
      rw [List.length_zip, hx, hy]
      exact Nat.min_self _
    have hzperm : (fancyIndex (s.x.zip s.y) perm).Perm (s.x.zip s.y) :=
      fancyIndex_perm _ _ (by rw [hzlen]; exact hperm)
    have hAB : ((fancyIndex s.x perm).zip (fancyIndex s.y perm)).Perm (x₀.zip y₀) := by
      rw [hzip]
      exact hzperm.trans hpair
    refine ⟨?_, ?_, ?_, ?_, ?_⟩
    · simpa [next_batch, hcase, hoff] using hAB
    · intro p hp
      have hsub : ((pySlice (fancyIndex s.x perm) 0 s.batch_size).zip
          (pySlice (fancyIndex s.y perm) 0 s.batch_size)) ⊆
          ((fancyIndex s.x perm).zip (fancyIndex s.y perm)) := by
        rw [pySlice_zip]
        exact (pySlice_sublist _ _ _).subset
      exact hAB.mem_iff.mp (hsub (by simpa [next_batch, hcase, hoff] using hp))
    · simp [next_batch, hcase, hoff]
    · simp [next_batch, hcase, hoff, fancyIndex_length s.x perm hvx, hplen]
    · simp [next_batch, hcase, hoff, fancyIndex_length s.y perm hvy, hplen]
  · refine ⟨?_, ?_, ?_, ?_, ?_⟩
    · simpa [next_batch, hcase] using hpair
    · intro p hp
      have hsub : ((pySlice s.x s.pointer (s.pointer + s.batch_size)).zip
          (pySlice s.y s.pointer (s.pointer + s.batch_size))) ⊆ (s.x.zip s.y) := by
        rw [pySlice_zip]
        exact (pySlice_sublist _ _ _).subset
      exact hpair.mem_iff.mp (hsub (by simpa [next_batch, hcase, hoff] using hp))
    · simp [next_batch, hcase, hoff]
    · simp [next_batch, hcase, hx]
    · simp [next_batch, hcase, hy]

/-- C3 witnessed on a two-example labelled iterator about to reshuffle. -/
theorem c3_label_pairing_witness :
    ((DataIterator.mk [10, 20] [5, 6] false 1 2 2 2 : DataIterator ℕ ℕ).label_off = false ∧
      ([10, 20] : List ℕ).length = 2 ∧ ([5, 6] : List ℕ).length = 2 ∧
      ((([10, 20] : List ℕ).zip ([5, 6] : List ℕ)).Perm
        (([10, 20] : List ℕ).zip ([5, 6] : List ℕ))) ∧
      ([1, 0] : List ℕ).Perm (List.range 2)) ∧
    (((next_batch (DataIterator.mk [10, 20] [5, 6] false 1 2 2 2) [1, 0]).2.x.zip
        (next_batch (DataIterator.mk [10, 20] [5, 6] false 1 2 2 2) [1, 0]).2.y).Perm
      (([10, 20] : List ℕ).zip ([5, 6] : List ℕ)) ∧
    (∀ p ∈ (next_batch (DataIterator.mk [10, 20] [5, 6] false 1 2 2 2) [1, 0]).1.1.zip
        (next_batch (DataIterator.mk [10, 20] [5, 6] false 1 2 2 2) [1, 0]).1.2,
      p ∈ ([10, 20] : List ℕ).zip ([5, 6] : List ℕ)) ∧
    (next_batch (DataIterator.mk [10, 20] [5, 6] false 1 2 2 2) [1, 0]).2.label_off = false ∧
    (next_batch (DataIterator.mk [10, 20] [5, 6] false 1 2 2 2) [1, 0]).2.x.length =
      (next_batch (DataIterator.mk [10, 20] [5, 6] false 1 2 2 2) [1, 0]).2.num_examples ∧
    (next_batch (DataIterator.mk [10, 20] [5, 6] false 1 2 2 2) [1, 0]).2.y.length =
      (next_batch (DataIterator.mk [10, 20] [5, 6] false 1 2 2 2) [1, 0]).2.num_examples) :=
  ⟨⟨rfl, rfl, rfl, List.Perm.refl _, by decide⟩,
    c3_label_pairing [10, 20] [5, 6] (DataIterator.mk [10, 20] [5, 6] false 1 2 2 2)
      [1, 0] rfl rfl rfl (List.Perm.refl _) (by decide)⟩

lemma iterAux_length (fuel j : ℕ) (s : DataIterator α β) (perms : ℕ → List ℕ) :
    (iterAux fuel j s perms).1.length = fuel := by
  induction fuel generalizing j s with
  | zero => rfl
  | succ k ih => simp [iterAux, ih]

/-- Permutation stream for the concrete `iterate` scenario (never consulted,
as no reshuffle is triggered there). -/
def c5perms : ℕ → List ℕ := fun _ => (List.range 100).reverse

/-- Fresh iterator over a feature array of length 100 with batch size 25. -/
def c5s0 : DataIterator ℕ ℕ :=
  ((mkDataIterator (List.range 100) ([] : List ℕ) 25 true).toOption).getD
    ⟨[], [], true, 0, 0, 0, 0⟩

/-- C5: one `iterate` call yields exactly `num_batches = num_examples //
batch_size` batches, each produced by `next_batch`; on the fresh 100-row
iterator with batch size 25 it yields 4 batches of 25 rows whose
concatenation is the full array in order, with no reshuffle (the stored
array is untouched and the pointer ends at 100). -/
theorem c5_iterate (s : DataIterator α β) (perms : ℕ → List ℕ)
    (x : List α) (y : List β) (bs : ℕ) (off : Bool) :
    (iterate s perms).1.length = s.num_batches ∧
    (mkDataIterator x y bs off = .ok s → s.num_batches = x.length / bs) ∧
    ((iterate c5s0 c5perms).1.length = 4 ∧
      (∀ b ∈ (iterate c5s0 c5perms).1, b.1.length = 25) ∧
      ((iterate c5s0 c5perms).1.map Prod.fst).flatten = List.range 100 ∧
      (iterate c5s0 c5perms).2.x = List.range 100 ∧
      (iterate c5s0 c5perms).2.pointer = 100) := by
  refine ⟨iterAux_length _ _ _ _, ?_, by decide⟩
  intro hmk
  unfold mkDataIterator at hmk
  by_cases h1 : bs = 0
  · rw [if_pos h1] at hmk
    cases hmk
  · rw [if_neg h1] at hmk
    by_cases h2 : bs ≤ x.length
    · rw [if_pos h2] at hmk
      rw [← Except.ok.inj hmk]
    · rw [if_neg h2] at hmk
      cases hmk

/-- C5 witnessed on the fresh concrete iterator (100 rows, batch 25). -/
theorem c5_iterate_witness :
    (mkDataIterator (List.range 100) ([] : List ℕ) 25 true = .ok c5s0) ∧
    ((iterate c5s0 c5perms).1.length = c5s0.num_batches ∧
      (mkDataIterator (List.range 100) ([] : List ℕ) 25 true = .ok c5s0 →
        c5s0.num_batches = (List.range 100).length / 25) ∧
      ((iterate c5s0 c5perms).1.length = 4 ∧
        (∀ b ∈ (iterate c5s0 c5perms).1, b.1.length = 25) ∧
        ((iterate c5s0 c5perms).1.map Prod.fst).flatten = List.range 100 ∧
        (iterate c5s0 c5perms).2.x = List.range 100 ∧
        (iterate c5s0 c5perms).2.pointer = 100)) :=
  ⟨by rfl, c5_iterate c5s0 c5perms (List.range 100) [] 25 true⟩

lemma tsub_ones (t : List ℝ) : tsub t (ones_like t) = t.map (fun v => v - 1) := by
  induction t with
  | nil => rfl
  | cons a l ih =>
    simp only [tsub, ones_like, List.map_cons, List.zipWith_cons_cons]
    simp only [tsub, ones_like] at ih
    rw [ih]

lemma tsub_zeros (t : List ℝ) : tsub t (zeros_like t) = t := by
  induction t with
  | nil => rfl
  | cons a l ih =>
    simp only [tsub, zeros_like, List.map_cons, List.zipWith_cons_cons]
    simp only [tsub, zeros_like] at ih
    rw [ih, sub_zero]

lemma mse_loss_ones (t : List ℝ) (b : ℕ) :
    mse_loss t (ones_like t) b = Real.sqrt ((t.map (fun v => (v - 1) ^ 2)).sum) / b := by
  unfold mse_loss l2_loss
  rw [tsub_ones, List.map_map]
  simp only [Function.comp_def]
  have h : (2 : ℝ) * ((t.map (fun v => (v - 1) ^ 2)).sum / 2)
      = (t.map (fun v => (v - 1) ^ 2)).sum := by ring
  rw [h]

lemma mse_loss_zeros (t : List ℝ) (b : ℕ) :
    mse_loss t (zeros_like t) b = Real.sqrt ((t.map (fun v => v ^ 2)).sum) / b := by
  unfold mse_loss l2_loss
  rw [tsub_zeros]
  have h : (2 : ℝ) * ((t.map (fun v => v ^ 2)).sum / 2)
      = (t.map (fun v => v ^ 2)).sum := by ring
  rw [h]

/-- C6 counterexample: for the discriminator-on-fake output `[0, 0]` with
batch size 2 the generator loss is `√2 / 2`, while the mean-squared
deviation from the all-ones target is 1 — and no reading of "mean-squared
deviation scaled by batch size" (`1`, `1/2` or `2`) matches: the code's
loss applies a square root that the claim lacks. -/
theorem c6_counterexample :
    g_loss [0, 0] 2 = Real.sqrt 2 / 2 ∧
    spec_msd_loss [0, 0] 1 2 = 1 ∧
    g_loss [0, 0] 2 ≠ spec_msd_loss [0, 0] 1 2 ∧
    g_loss [0, 0] 2 ≠ 1 / 2 ∧
    g_loss [0, 0] 2 ≠ 2 := by
  have hs : Real.sqrt 2 ^ 2 = 2 := Real.sq_sqrt (by norm_num)
  have hg : g_loss [0, 0] 2 = Real.sqrt 2 / 2 := by
    unfold g_loss reduce_sum
    rw [mse_loss_ones]
    norm_num
  have hspec : spec_msd_loss [0, 0] 1 2 = 1 := by
    unfold spec_msd_loss
    norm_num
  refine ⟨hg, hspec, ?_, ?_, ?_⟩
  · rw [hg, hspec]
    intro h
    have h2 : Real.sqrt 2 = 2 := by linarith
    rw [h2] at hs
    norm_num at hs
  · rw [hg]
    intro h
    have h2 : Real.sqrt 2 = 1 := by linarith
    rw [h2] at hs
    norm_num at hs
  · rw [hg]
    intro h
    have h2 : Real.sqrt 2 = 4 := by linarith
    rw [h2] at hs
    norm_num at hs

/-- C6 amended: each loss is the square root of the summed squared
deviation of the discriminator output from its target labels (1 for real
and 0 for fake for the discriminator; 1 for the generator's fooling
objective), divided by the batch size — a root-sum-of-squares, not a
mean-squared deviation — and the discriminator loss is the average of its
real-term and fake-term losses. -/
theorem c6_amended (d_real d_fake : List ℝ) (b : ℕ) :
    d_loss d_real d_fake b =
      (Real.sqrt ((d_real.map (fun v => (v - 1) ^ 2)).sum) / b
        + Real.sqrt ((d_fake.map (fun v => v ^ 2)).sum) / b) / 2 ∧
    g_loss d_fake b = Real.sqrt ((d_fake.map (fun v => (v - 1) ^ 2)).sum) / b := by
  constructor
  · unfold d_loss reduce_sum
    rw [mse_loss_ones, mse_loss_zeros]
  · unfold g_loss reduce_sum
    rw [mse_loss_ones]

end SRGAN
